import Mathlib

/-!
Shallow embedding of `src/app.py` (Pixabay video downloader).

The script runs one linear pipeline per button click:
validation (line 85), a paged search loop over at most two pages
(lines 105-138), a filter over each page's raw hit records
(lines 121-128), and a download loop that streams each eligible
video and writes it into an in-memory zip (lines 150-188).

Raw JSON hit records are modelled by `RawHit`; the `videos` mapping
and each quality rendition are association lists of string fields, so
that Python dict truthiness (`if video["videos"].get(video_quality):`)
becomes non-emptiness of the rendition list, and missing keys become
`none`.  The two network oracles (`pages` for API page fetches,
`fetch` for video downloads) are parameters of the run; an `Except`
failure of `pages` stands for a `RequestException` or decode error on
a search request, and an `Except` failure of `fetch` stands for a
`RequestException`/HTTP error during one video download.
-/

namespace PixabayDL

/-- One quality rendition: the JSON object stored under a quality tag in a
hit's `videos` mapping (fields such as `url`, `width`, ...), as an
association list.  Python truthiness of the dict is non-emptiness. -/
abbrev Rendition := List (String × String)

/-- One raw search-result record from the API's `hits` array.
`duration` is `video.get("duration")`; `id` is `video.get("id", ...)`
(the identifier is kept opaque, as the string the script interpolates);
`videos` is the `videos` key, `none` when the key is absent (so that
`video["videos"]` raises `KeyError`). -/
structure RawHit where
  duration : Option Int
  id : Option String
  videos : Option (List (String × Rendition))
deriving DecidableEq

/-- Phase 3 filter loop over one page's `data["hits"]` (app.py lines
121-128): keep a record when `duration` is present, lies in the inclusive
range, and `video["videos"].get(video_quality)` is truthy; break out as
soon as `len(eligible_videos) >= num_videos_to_download`.  A record whose
duration passes the range check but whose `videos` key is absent raises
`KeyError`, modelled by `.error ()` (caught only by the page-level
handler, app.py lines 133-135). -/
def filterHits (minD maxD : Int) (quality : String) (count : Nat) :
    List RawHit → List RawHit → Except Unit (List RawHit)
  | acc, [] => .ok acc
  | acc, v :: rest =>
    match v.duration with
    | none => filterHits minD maxD quality count acc rest
    | some d =>
      if minD ≤ d ∧ d ≤ maxD then
        match v.videos with
        | none => .error ()
        | some vids =>
          match vids.lookup quality with
          | none => filterHits minD maxD quality count acc rest
          | some r =>
            if r.isEmpty then filterHits minD maxD quality count acc rest
            else
              if count ≤ acc.length + 1 then .ok (acc ++ [v])
              else filterHits minD maxD quality count (acc ++ [v]) rest
      else filterHits minD maxD quality count acc rest

/-- Phase 2 page loop (app.py lines 108-138): for `page in range(1,
total_pages_to_check + 1)` request the page, break on an empty `hits`
list, filter the page, and break once enough videos were collected.  Any
`RequestException` or other exception during the request/filter stops the
whole run (`st.stop`), modelled by a `none` outcome.  The returned trace
lists, in order, each page number actually requested together with the
`eligible_videos` accumulator at the moment of the request. -/
def searchLoop (pages : Nat → Except Unit (List RawHit)) (minD maxD : Int)
    (quality : String) (count : Nat) :
    Nat → Nat → List RawHit → List (Nat × List RawHit) →
    List (Nat × List RawHit) × Option (List RawHit)
  | 0, _, acc, trace => (trace, some acc)
  | fuel + 1, page, acc, trace =>
    let trace' := trace ++ [(page, acc)]
    match pages page with
    | .error _ => (trace', none)
    | .ok hits =>
      if hits.isEmpty then (trace', some acc)
      else
        match filterHits minD maxD quality count acc hits with
        | .error _ => (trace', none)
        | .ok acc' =>
          if count ≤ acc'.length then (trace', some acc')
          else searchLoop pages minD maxD quality count fuel (page + 1) acc' trace'

/-- The whole search phase: pages 1 and 2 (`total_pages_to_check = 2`,
app.py line 105), starting from an empty `eligible_videos` list. -/
def searchPhase (pages : Nat → Except Unit (List RawHit)) (minD maxD : Int)
    (quality : String) (count : Nat) :
    List (Nat × List RawHit) × Option (List RawHit) :=
  searchLoop pages minD maxD quality count 2 1 [] []

/-- `video["videos"][video_quality]["url"]` (app.py line 156): `none`
when any of the three keys is missing, in which case the Python
expression raises `KeyError` outside the per-item `try`. -/
def urlOf (v : RawHit) (quality : String) : Option String :=
  match v.videos with
  | none => none
  | some vids =>
    match vids.lookup quality with
    | none => none
    | some r => r.lookup "url"

/-- `video.get("id", f"unknown_id_{i}")` (app.py line 157). -/
def videoIdOf (v : RawHit) (i : Nat) : String :=
  match v.id with
  | some s => s
  | none => "unknown_id_" ++ toString i

/-- `filename = f"pixabay_video_{video_id}.mp4"` (app.py line 159). -/
def filenameOf (v : RawHit) (i : Nat) : String :=
  "pixabay_video_" ++ videoIdOf v i ++ ".mp4"

/-- Phase 4 download loop (app.py lines 152-188) over
`enumerate(eligible_videos)`.  State: the zip entries written so far and
`st.session_state.downloaded_files`.  Per item: break once
`len(downloaded_files) >= num_videos_to_download`; extract the download
URL (a missing key raises `KeyError` OUTSIDE the per-item `try`,
aborting the loop: the `.error` result); fetch the URL, and on any
exception `continue` to the next item; on success write the full content
into the zip and record the file name. -/
def downloadLoop (fetch : String → Except Unit (List Nat)) (quality : String)
    (count : Nat) :
    List RawHit → Nat → List (String × List Nat) → List String →
    Except (List (String × List Nat) × List String)
      (List (String × List Nat) × List String)
  | [], _, entries, files => .ok (entries, files)
  | v :: rest, i, entries, files =>
    if count ≤ files.length then .ok (entries, files)
    else
      match urlOf v quality with
      | none => .error (entries, files)
      | some u =>
        match fetch u with
        | .error _ => downloadLoop fetch quality count rest (i + 1) entries files
        | .ok bytes =>
          downloadLoop fetch quality count rest (i + 1)
            (entries ++ [(filenameOf v i, bytes)]) (files ++ [filenameOf v i])

/-- Outcome of one button-triggered run of the script. -/
inductive RunOutcome where
  /-- `min_duration >= max_duration`: inline error, `st.stop` before any
  network call (app.py lines 85-87). -/
  | invalid : RunOutcome
  /-- An exception while requesting or filtering a search page:
  `st.stop` (app.py lines 130-135). -/
  | searchFatal (trace : List (Nat × List RawHit)) : RunOutcome
  /-- `eligible_videos` empty: warning and `st.stop` (app.py lines
  141-143). -/
  | noHits (trace : List (Nat × List RawHit)) : RunOutcome
  /-- Uncaught `KeyError` on `video["videos"][video_quality]["url"]`
  (app.py line 156): the script aborts, no download button is rendered. -/
  | crash (trace : List (Nat × List RawHit)) (eligible : List RawHit)
      (entries : List (String × List Nat)) (files : List String) : RunOutcome
  /-- The download loop completed; Phase 5 offers the zip iff
  `st.session_state.downloaded_files` is non-empty (app.py lines 194-208). -/
  | done (trace : List (Nat × List RawHit)) (eligible : List RawHit)
      (entries : List (String × List Nat)) (files : List String) : RunOutcome
deriving DecidableEq

/-- One full run of the execution logic (app.py lines 83-208). -/
def run (minD maxD : Int) (quality : String) (count : Nat)
    (pages : Nat → Except Unit (List RawHit))
    (fetch : String → Except Unit (List Nat)) : RunOutcome :=
  if maxD ≤ minD then .invalid
  else
    match searchPhase pages minD maxD quality count with
    | (trace, none) => .searchFatal trace
    | (trace, some eligible) =>
      if eligible.isEmpty then .noHits trace
      else
        match downloadLoop fetch quality count eligible 0 [] [] with
        | .error (entries, files) => .crash trace eligible entries files
        | .ok (entries, files) => .done trace eligible entries files

/-- The pages the run actually requested (with the accumulator at the
moment of each request); empty when validation failed. -/
def runTrace : RunOutcome → List (Nat × List RawHit)
  | .invalid => []
  | .searchFatal t => t
  | .noHits t => t
  | .crash t _ _ _ => t
  | .done t _ _ _ => t

/-- The archive the operator is offered: only a completed run with at
least one successfully downloaded file renders the download button
(app.py lines 194-208). -/
def offeredArchive : RunOutcome → Option (List (String × List Nat))
  | .done _ _ entries files => if files.isEmpty then none else some entries
  | _ => none

/-- The inclusion rule the filter actually enforces on a kept record:
duration present, in the inclusive range, and the requested quality's
rendition object present and non-empty (truthy); the rendition's `url`
field is NOT consulted by the filter. -/
def keptOk (minD maxD : Int) (quality : String) (v : RawHit) : Bool :=
  match v.duration with
  | none => false
  | some d =>
    decide (minD ≤ d) && decide (d ≤ maxD) &&
      (match v.videos with
       | none => false
       | some vids =>
         match vids.lookup quality with
         | none => false
         | some r => !r.isEmpty)

/-- The contribution of the eligible hit at index `i` to the zip: `none`
when its fetch fails (the item is skipped), the written `(name, bytes)`
entry when it succeeds. -/
def succOf (fetch : String → Except Unit (List Nat)) (quality : String)
    (p : Nat × RawHit) : Option (String × List Nat) :=
  match urlOf p.2 quality with
  | none => none
  | some u =>
    match fetch u with
    | .error _ => none
    | .ok bytes => some (filenameOf p.2 p.1, bytes)

/- Concrete fixtures used by witnesses and counterexamples. -/

/-- A well-formed hit: in-range duration, a `medium` rendition with a
non-empty url. -/
def hitA : RawHit :=
  { duration := some 15, id := some "101", videos := some [("medium", [("url", "ua")])] }

/-- A second well-formed hit with a different id and url. -/
def hitB : RawHit :=
  { duration := some 20, id := some "202", videos := some [("medium", [("url", "ub")])] }

/-- A hit whose `medium` rendition exists (truthy dict) but whose url is
the empty string. -/
def emptyUrlHit : RawHit :=
  { duration := some 15, id := some "7", videos := some [("medium", [("url", "")])] }

/-- Two hits that report the same external identifier. -/
def dupA : RawHit :=
  { duration := some 15, id := some "7", videos := some [("medium", [("url", "ua")])] }

/-- Second hit with the duplicated identifier. -/
def dupB : RawHit :=
  { duration := some 20, id := some "7", videos := some [("medium", [("url", "ub")])] }

/-- A malformed record: in-range duration but no `videos` key at all. -/
def badNoVideos : RawHit :=
  { duration := some 15, id := some "9", videos := none }

/-- A page oracle serving `l` as page 1 and empty pages afterwards. -/
def pagesOf (l : List RawHit) : Nat → Except Unit (List RawHit) :=
  fun p => if p = 1 then .ok l else .ok []

/-- A page oracle whose every request fails (transport/decoding error). -/
def pagesErr : Nat → Except Unit (List RawHit) :=
  fun _ => .error ()

/-- A download oracle that always succeeds with one byte. -/
def fetchOk : String → Except Unit (List Nat) :=
  fun _ => .ok [1]

/-- A download oracle failing exactly on url `ua`. -/
def fetchFailA : String → Except Unit (List Nat) :=
  fun u => if u = "ua" then .error () else .ok [7]

/-! ## Helper lemmas about the filter loop -/

/-- Every record the filter loop adds to the accumulator satisfies the
inclusion rule the code enforces. -/
theorem filterHits_mem (minD maxD : Int) (quality : String) (count : Nat) :
    ∀ (l acc res : List RawHit),
      filterHits minD maxD quality count acc l = .ok res →
      ∀ v ∈ res, v ∈ acc ∨ keptOk minD maxD quality v = true := by
  intro l
  induction l with
  | nil =>
    intro acc res h v hv
    simp only [filterHits] at h
    injection h with h
    subst h
    exact Or.inl hv
  | cons x xs ih =>
    intro acc res h v hv
    simp only [filterHits] at h
    cases hd : x.duration with
    | none =>
      simp only [hd] at h
      exact ih acc res h v hv
    | some d =>
      simp only [hd] at h
      by_cases hr : minD ≤ d ∧ d ≤ maxD
      · rw [if_pos hr] at h
        cases hvv : x.videos with
        | none => simp only [hvv] at h; cases h
        | some vids =>
          simp only [hvv] at h
          cases hl : vids.lookup quality with
          | none => simp only [hl] at h; exact ih acc res h v hv
          | some r =>
            simp only [hl] at h
            by_cases he : r.isEmpty
            · rw [if_pos he] at h; exact ih acc res h v hv
            · rw [if_neg he] at h
              by_cases hc : count ≤ acc.length + 1
              · rw [if_pos hc] at h
                injection h with h
                subst h
                rcases List.mem_append.mp hv with h1 | h2
                · exact Or.inl h1
                · have hx : v = x := by simpa using h2
                  subst hx
                  exact Or.inr (by simp [keptOk, hd, hvv, hl, hr.1, hr.2, he])
              · rw [if_neg hc] at h
                rcases ih (acc ++ [x]) res h v hv with hmem | hk
                · rcases List.mem_append.mp hmem with h1 | h2
                  · exact Or.inl h1
                  · have hx : v = x := by simpa using h2
                    subst hx
                    exact Or.inr (by simp [keptOk, hd, hvv, hl, hr.1, hr.2, he])
                · exact Or.inr hk
      · rw [if_neg hr] at h
        exact ih acc res h v hv

/-- Starting strictly below the requested count, the filter loop never
returns more than `count` records. -/
theorem filterHits_length (minD maxD : Int) (quality : String) (count : Nat) :
    ∀ (l acc res : List RawHit), acc.length < count →
      filterHits minD maxD quality count acc l = .ok res →
      res.length ≤ count := by
  intro l
  induction l with
  | nil =>
    intro acc res hlt h
    simp only [filterHits] at h
    injection h with h
    subst h
    exact Nat.le_of_lt hlt
  | cons x xs ih =>
    intro acc res hlt h
    simp only [filterHits] at h
    cases hd : x.duration with
    | none => simp only [hd] at h; exact ih acc res hlt h
    | some d =>
      simp only [hd] at h
      by_cases hr : minD ≤ d ∧ d ≤ maxD
      · rw [if_pos hr] at h
        cases hvv : x.videos with
        | none => simp only [hvv] at h; cases h
        | some vids =>
          simp only [hvv] at h
          cases hl : vids.lookup quality with
          | none => simp only [hl] at h; exact ih acc res hlt h
          | some r =>
            simp only [hl] at h
            by_cases he : r.isEmpty
            · rw [if_pos he] at h; exact ih acc res hlt h
            · rw [if_neg he] at h
              by_cases hc : count ≤ acc.length + 1
              · rw [if_pos hc] at h
                injection h with h
                subst h
                simpa using hlt
              · rw [if_neg hc] at h
                exact ih (acc ++ [x]) res (by simpa using Nat.lt_of_not_le hc) h
      · rw [if_neg hr] at h
        exact ih acc res hlt h

/-- If the filter loop runs through `l1` without raising and without
filling the quota, then a malformed record placed right after `l1`
(in-range duration, no `videos` mapping) makes the loop raise. -/
theorem filterHits_reach (minD maxD : Int) (quality : String) (count : Nat)
    (bad : RawHit) (d : Int) (hd : bad.duration = some d) (h1 : minD ≤ d)
    (h2 : d ≤ maxD) (hv : bad.videos = none) :
    ∀ (l1 : List RawHit) (acc acc' : List RawHit) (l2 : List RawHit),
      filterHits minD maxD quality count acc l1 = .ok acc' →
      acc'.length < count →
      filterHits minD maxD quality count acc (l1 ++ bad :: l2) = .error () := by
  intro l1
  induction l1 with
  | nil =>
    intro acc acc' l2 h hlt
    simp only [filterHits] at h
    injection h with h
    subst h
    simp only [List.nil_append, filterHits, hd, hv, if_pos (And.intro h1 h2)]
  | cons x xs ih =>
    intro acc acc' l2 h hlt
    simp only [filterHits] at h
    simp only [List.cons_append, filterHits]
    cases hdx : x.duration with
    | none =>
      simp only [hdx] at h ⊢
      exact ih acc acc' l2 h hlt
    | some dx =>
      simp only [hdx] at h ⊢
      by_cases hr : minD ≤ dx ∧ dx ≤ maxD
      · rw [if_pos hr] at h
        rw [if_pos hr]
        cases hvv : x.videos with
        | none => simp only [hvv] at h; cases h
        | some vids =>
          simp only [hvv] at h ⊢
          cases hl : vids.lookup quality with
          | none => simp only [hl] at h ⊢; exact ih acc acc' l2 h hlt
          | some r =>
            simp only [hl] at h ⊢
            by_cases he : r.isEmpty
            · rw [if_pos he] at h; rw [if_pos he]; exact ih acc acc' l2 h hlt
            · rw [if_neg he] at h
              rw [if_neg he]
              by_cases hc : count ≤ acc.length + 1
              · rw [if_pos hc] at h
                injection h with h
                subst h
                exact absurd hlt (by simpa using Nat.not_lt_of_le hc)
              · rw [if_neg hc] at h
                rw [if_neg hc]
                exact ih (acc ++ [x]) acc' l2 h hlt
      · rw [if_neg hr] at h
        rw [if_neg hr]
        exact ih acc acc' l2 h hlt

/-! ## Helper lemmas about the page loop -/

/-- If the page loop returns an eligible list, its length never exceeds
the requested count (the accumulator starting strictly below it). -/
theorem searchLoop_length (pages : Nat → Except Unit (List RawHit))
    (minD maxD : Int) (quality : String) (count : Nat) :
    ∀ (fuel page : Nat) (acc : List RawHit) (trace t : List (Nat × List RawHit))
      (res : List RawHit),
      acc.length < count →
      searchLoop pages minD maxD quality count fuel page acc trace = (t, some res) →
      res.length ≤ count := by
  intro fuel
  induction fuel with
  | zero =>
    intro page acc trace t res hlt h
    simp only [searchLoop] at h
    injection h with h1 h2
    injection h2 with h2
    subst h2
    exact Nat.le_of_lt hlt
  | succ fuel ih =>
    intro page acc trace t res hlt h
    simp only [searchLoop] at h
    cases hp : pages page with
    | error e =>
      simp only [hp] at h
      injection h with h1 h2
      exact Option.noConfusion h2
    | ok hits =>
      simp only [hp] at h
      by_cases hh : hits.isEmpty
      · rw [if_pos hh] at h
        injection h with h1 h2
        injection h2 with h2
        subst h2
        exact Nat.le_of_lt hlt
      · rw [if_neg hh] at h
        cases hf : filterHits minD maxD quality count acc hits with
        | error e =>
          simp only [hf] at h
          injection h with h1 h2
          exact Option.noConfusion h2
        | ok acc' =>
          simp only [hf] at h
          by_cases hc : count ≤ acc'.length
          · rw [if_pos hc] at h
            injection h with h1 h2
            injection h2 with h2
            subst h2
            exact filterHits_length minD maxD quality count hits acc _ hlt hf
          · rw [if_neg hc] at h
            exact ih (page + 1) acc' _ t res (Nat.lt_of_not_le hc) h

/-- Every page request in the trace happens while the accumulated count
is still strictly below the requested count. -/
theorem searchLoop_trace_lt (pages : Nat → Except Unit (List RawHit))
    (minD maxD : Int) (quality : String) (count : Nat) :
    ∀ (fuel page : Nat) (acc : List RawHit) (trace : List (Nat × List RawHit))
      (p : Nat) (a : List RawHit),
      acc.length < count →
      (∀ q b, (q, b) ∈ trace → b.length < count) →
      (p, a) ∈ (searchLoop pages minD maxD quality count fuel page acc trace).1 →
      a.length < count := by
  intro fuel
  induction fuel with
  | zero =>
    intro page acc trace p a hlt htr hmem
    simp only [searchLoop] at hmem
    exact htr p a hmem
  | succ fuel ih =>
    intro page acc trace p a hlt htr hmem
    simp only [searchLoop] at hmem
    have htr' : ∀ q b, (q, b) ∈ trace ++ [(page, acc)] → b.length < count := by
      intro q b hqb
      rcases List.mem_append.mp hqb with h1 | h2
      · exact htr q b h1
      · have heq : (q, b) = (page, acc) := by simpa using h2
        injection heq with hq hb
        subst hb
        exact hlt
    cases hp : pages page with
    | error e =>
      simp only [hp] at hmem
      exact htr' p a hmem
    | ok hits =>
      simp only [hp] at hmem
      by_cases hh : hits.isEmpty
      · rw [if_pos hh] at hmem
        exact htr' p a hmem
      · rw [if_neg hh] at hmem
        cases hf : filterHits minD maxD quality count acc hits with
        | error e =>
          simp only [hf] at hmem
          exact htr' p a hmem
        | ok acc' =>
          simp only [hf] at hmem
          by_cases hc : count ≤ acc'.length
          · rw [if_pos hc] at hmem
            exact htr' p a hmem
          · rw [if_neg hc] at hmem
            exact ih (page + 1) acc' _ p a (Nat.lt_of_not_le hc) htr' hmem

/-- If a page recorded in the trace failed to fetch, the loop ended
with no result (the failure aborted the run), unless that trace entry
was already present before the loop started. -/
theorem searchLoop_pageError (pages : Nat → Except Unit (List RawHit))
    (minD maxD : Int) (quality : String) (count : Nat) :
    ∀ (fuel page : Nat) (acc : List RawHit) (trace : List (Nat × List RawHit))
      (p : Nat) (a : List RawHit),
      (p, a) ∈ (searchLoop pages minD maxD quality count fuel page acc trace).1 →
      pages p = .error () →
      (p, a) ∈ trace ∨
        (searchLoop pages minD maxD quality count fuel page acc trace).2 = none := by
  intro fuel
  induction fuel with
  | zero =>
    intro page acc trace p a hmem hperr
    simp only [searchLoop] at hmem
    exact Or.inl hmem
  | succ fuel ih =>
    intro page acc trace p a hmem hperr
    simp only [searchLoop] at hmem ⊢
    cases hp : pages page with
    | error e =>
      simp only [hp] at hmem ⊢
      exact Or.inr trivial
    | ok hits =>
      simp only [hp] at hmem ⊢
      have hnew : (p, a) ∈ trace ++ [(page, acc)] → (p, a) ∈ trace := by
        intro hin
        rcases List.mem_append.mp hin with h1 | h2
        · exact h1
        · exfalso
          have heq : (p, a) = (page, acc) := by simpa using h2
          injection heq with hq hb
          subst hq
          rw [hperr] at hp
          exact Except.noConfusion hp
      by_cases hh : hits.isEmpty
      · rw [if_pos hh] at hmem ⊢
        exact Or.inl (hnew hmem)
      · rw [if_neg hh] at hmem ⊢
        cases hf : filterHits minD maxD quality count acc hits with
        | error e =>
          simp only [hf] at hmem ⊢
          exact Or.inr trivial
        | ok acc' =>
          simp only [hf] at hmem ⊢
          by_cases hc : count ≤ acc'.length
          · rw [if_pos hc] at hmem ⊢
            exact Or.inl (hnew hmem)
          · rw [if_neg hc] at hmem ⊢
            rcases ih (page + 1) acc' _ p a hmem hperr with h1 | h2
            · exact Or.inl (hnew h1)
            · exact Or.inr h2

/-- If the filter raised on a page recorded in the trace (with the
accumulator recorded there), the loop ended with no result. -/
theorem searchLoop_filterError (pages : Nat → Except Unit (List RawHit))
    (minD maxD : Int) (quality : String) (count : Nat) :
    ∀ (fuel page : Nat) (acc : List RawHit) (trace : List (Nat × List RawHit))
      (p : Nat) (a : List RawHit) (hits : List RawHit),
      (p, a) ∈ (searchLoop pages minD maxD quality count fuel page acc trace).1 →
      pages p = .ok hits →
      filterHits minD maxD quality count a hits = .error () →
      (p, a) ∈ trace ∨
        (searchLoop pages minD maxD quality count fuel page acc trace).2 = none := by
  intro fuel
  induction fuel with
  | zero =>
    intro page acc trace p a hits hmem hpok hferr
    simp only [searchLoop] at hmem
    exact Or.inl hmem
  | succ fuel ih =>
    intro page acc trace p a hits hmem hpok hferr
    simp only [searchLoop] at hmem ⊢
    cases hp : pages page with
    | error e =>
      simp only [hp] at hmem ⊢
      exact Or.inr trivial
    | ok hits' =>
      simp only [hp] at hmem ⊢
      by_cases hh : hits'.isEmpty
      · rw [if_pos hh] at hmem ⊢
        rcases List.mem_append.mp hmem with h1 | h2
        · exact Or.inl h1
        · exfalso
          have heq : (p, a) = (page, acc) := by simpa using h2
          injection heq with hq hb
          subst hq
          subst hb
          rw [hp] at hpok
          injection hpok with hhits
          subst hhits
          rw [List.isEmpty_iff.mp hh] at hferr
          simp only [filterHits] at hferr
          exact Except.noConfusion hferr
      · rw [if_neg hh] at hmem ⊢
        cases hf : filterHits minD maxD quality count acc hits' with
        | error e =>
          simp only [hf] at hmem ⊢
          exact Or.inr trivial
        | ok acc' =>
          simp only [hf] at hmem ⊢
          have hnew : (p, a) ∈ trace ++ [(page, acc)] → (p, a) ∈ trace := by
            intro hin
            rcases List.mem_append.mp hin with h1 | h2
            · exact h1
            · exfalso
              have heq : (p, a) = (page, acc) := by simpa using h2
              injection heq with hq hb
              subst hq
              subst hb
              rw [hp] at hpok
              injection hpok with hhits
              subst hhits
              rw [hf] at hferr
              exact Except.noConfusion hferr
          by_cases hc : count ≤ acc'.length
          · rw [if_pos hc] at hmem ⊢
            exact Or.inl (hnew hmem)
          · rw [if_neg hc] at hmem ⊢
            rcases ih (page + 1) acc' _ p a hits hmem hpok hferr with h1 | h2
            · exact Or.inl (hnew h1)
            · exact Or.inr h2

/-! ## Helper lemmas about the download loop -/

/-- When the remaining items cannot overrun the requested count (which
the filter guarantees), a completed download loop writes exactly the
successful items, in order: the final zip entries extend the entries so
far by the in-order image of `succOf`, and the recorded file names
extend the names so far by the entry names. -/
theorem downloadLoop_char (fetch : String → Except Unit (List Nat))
    (quality : String) (count : Nat) :
    ∀ (rest : List RawHit) (i : Nat) (entries : List (String × List Nat))
      (files : List String) (E : List (String × List Nat)) (F : List String),
      files.length + rest.length ≤ count →
      downloadLoop fetch quality count rest i entries files = .ok (E, F) →
      E = entries ++ (List.enumFrom i rest).filterMap (succOf fetch quality) ∧
      F = files ++
        ((List.enumFrom i rest).filterMap (succOf fetch quality)).map Prod.fst := by
  intro rest
  induction rest with
  | nil =>
    intro i entries files E F hlen h
    simp only [downloadLoop] at h
    injection h with h
    injection h with h1 h2
    subst h1
    subst h2
    constructor <;> simp [List.enumFrom]
  | cons v vs ih =>
    intro i entries files E F hlen h
    simp only [downloadLoop] at h
    have hguard : ¬ (count ≤ files.length) := by
      simp only [List.length_cons] at hlen
      omega
    rw [if_neg hguard] at h
    cases hu : urlOf v quality with
    | none =>
      simp only [hu] at h
      exact Except.noConfusion h
    | some u =>
      simp only [hu] at h
      cases hf : fetch u with
      | error e =>
        simp only [hf] at h
        have hlen' : files.length + vs.length ≤ count := by
          simp only [List.length_cons] at hlen
          omega
        rcases ih (i + 1) entries files E F hlen' h with ⟨hE, hF⟩
        constructor
        · rw [hE]
          simp [List.enumFrom, List.filterMap_cons, succOf, hu, hf]
        · rw [hF]
          simp [List.enumFrom, List.filterMap_cons, succOf, hu, hf]
      | ok bytes =>
        simp only [hf] at h
        have hlen' : (files ++ [filenameOf v i]).length + vs.length ≤ count := by
          simp only [List.length_cons] at hlen
          simp only [List.length_append, List.length_cons, List.length_nil]
          omega
        rcases ih (i + 1) (entries ++ [(filenameOf v i, bytes)])
            (files ++ [filenameOf v i]) E F hlen' h with ⟨hE, hF⟩
        constructor
        · rw [hE]
          simp [List.enumFrom, List.filterMap_cons, succOf, hu, hf, List.append_assoc]
        · rw [hF]
          simp [List.enumFrom, List.filterMap_cons, succOf, hu, hf, List.append_assoc]

/-! ## Inversion of a whole run -/

/-- A completed run came from a successful search phase on those very
eligible hits and a completed download loop. -/
theorem run_done_inv (minD maxD : Int) (quality : String) (count : Nat)
    (pages : Nat → Except Unit (List RawHit))
    (fetch : String → Except Unit (List Nat))
    (t : List (Nat × List RawHit)) (e : List RawHit)
    (en : List (String × List Nat)) (f : List String)
    (h : run minD maxD quality count pages fetch = .done t e en f) :
    searchPhase pages minD maxD quality count = (t, some e) ∧
    downloadLoop fetch quality count e 0 [] [] = .ok (en, f) := by
  unfold run at h
  split at h
  · exact absurd h (by simp)
  · split at h
    next tr heq => exact absurd h (by simp)
    next tr elig heq =>
      split at h
      · exact absurd h (by simp)
      · split at h
        next en' f' hdl => exact absurd h (by simp)
        next en' f' hdl =>
          injection h with h1 h2 h3 h4
          subst h1
          subst h2
          subst h3
          subst h4
          exact ⟨heq, hdl⟩

/-- Every hit returned by the page loop satisfies the filter's
inclusion rule (assuming the accumulator already does). -/
theorem searchLoop_mem (pages : Nat → Except Unit (List RawHit))
    (minD maxD : Int) (quality : String) (count : Nat) :
    ∀ (fuel page : Nat) (acc : List RawHit) (trace t : List (Nat × List RawHit))
      (res : List RawHit),
      (∀ v ∈ acc, keptOk minD maxD quality v = true) →
      searchLoop pages minD maxD quality count fuel page acc trace = (t, some res) →
      ∀ v ∈ res, keptOk minD maxD quality v = true := by
  intro fuel
  induction fuel with
  | zero =>
    intro page acc trace t res hacc h
    simp only [searchLoop] at h
    injection h with h1 h2
    injection h2 with h2
    subst h2
    exact hacc
  | succ fuel ih =>
    intro page acc trace t res hacc h
    simp only [searchLoop] at h
    cases hp : pages page with
    | error e =>
      simp only [hp] at h
      injection h with h1 h2
      exact Option.noConfusion h2
    | ok hits =>
      simp only [hp] at h
      by_cases hh : hits.isEmpty
      · rw [if_pos hh] at h
        injection h with h1 h2
        injection h2 with h2
        subst h2
        exact hacc
      · rw [if_neg hh] at h
        cases hf : filterHits minD maxD quality count acc hits with
        | error e =>
          simp only [hf] at h
          injection h with h1 h2
          exact Option.noConfusion h2
        | ok acc' =>
          have hacc' : ∀ v ∈ acc', keptOk minD maxD quality v = true := by
            intro v hv
            rcases filterHits_mem minD maxD quality count hits acc acc' hf v hv with
              h1 | h2
            · exact hacc v h1
            · exact h2
          simp only [hf] at h
          by_cases hc : count ≤ acc'.length
          · rw [if_pos hc] at h
            injection h with h1 h2
            injection h2 with h2
            subst h2
            exact hacc'
          · rw [if_neg hc] at h
            exact ih (page + 1) acc' _ t res hacc' h

/-- A failed search phase makes the whole run fatal. -/
theorem run_of_search_none (minD maxD : Int) (quality : String) (count : Nat)
    (pages : Nat → Except Unit (List RawHit))
    (fetch : String → Except Unit (List Nat))
    (t : List (Nat × List RawHit)) (hlt : minD < maxD)
    (hsp : searchPhase pages minD maxD quality count = (t, none)) :
    run minD maxD quality count pages fetch = .searchFatal t := by
  unfold run
  rw [if_neg (not_le.mpr hlt), hsp]

/-! ## Helper lemmas about generated file names -/

/-- The file-name template is injective in the interpolated identifier. -/
theorem filename_template_inj (a b : String)
    (h : "pixabay_video_" ++ a ++ ".mp4" = "pixabay_video_" ++ b ++ ".mp4") :
    a = b := by
  have hd := congrArg String.data h
  simp only [String.data_append] at hd
  have h1 := List.append_cancel_right hd
  have h2 := List.append_cancel_left h1
  cases a
  cases b
  exact congrArg String.mk h2

/-- The names of the written zip entries form a sublist of the names all
eligible items would get. -/
theorem filterMap_fst_sublist (fetch : String → Except Unit (List Nat))
    (quality : String) :
    ∀ (l : List (Nat × RawHit)),
      ((l.filterMap (succOf fetch quality)).map Prod.fst).Sublist
        (l.map (fun p => filenameOf p.2 p.1)) := by
  intro l
  induction l with
  | nil => simp
  | cons x xs ih =>
    cases hs : succOf fetch quality x with
    | none =>
      simp only [List.filterMap_cons, hs, List.map_cons]
      exact ih.cons _
    | some y =>
      have hy : y.1 = filenameOf x.2 x.1 := by
        simp only [succOf] at hs
        cases hu : urlOf x.2 quality with
        | none =>
          simp only [hu] at hs
          exact Option.noConfusion hs
        | some u =>
          simp only [hu] at hs
          cases hf : fetch u with
          | error e =>
            simp only [hf] at hs
            exact Option.noConfusion hs
          | ok bytes =>
            simp only [hf] at hs
            injection hs with hs
            rw [← hs]
      simp only [List.filterMap_cons, hs, List.map_cons]
      rw [hy]
      exact ih.cons₂ _

/-- When every hit reports an identifier, the generated name of each
enumerated item does not depend on its index. -/
theorem map_filename_enumFrom :
    ∀ (l : List RawHit) (n : Nat),
      (∀ v ∈ l, v.id.isSome = true) →
      (List.enumFrom n l).map (fun p => filenameOf p.2 p.1) =
        l.map (fun v => "pixabay_video_" ++ v.id.getD "" ++ ".mp4") := by
  intro l
  induction l with
  | nil =>
    intro n h
    simp [List.enumFrom]
  | cons x xs ih =>
    intro n h
    have hx : x.id.isSome = true := h x (List.mem_cons_self x xs)
    rcases Option.isSome_iff_exists.mp hx with ⟨s, hs⟩
    simp only [List.enumFrom, List.map_cons]
    rw [ih (n + 1) (fun v hv => h v (List.mem_cons_of_mem x hv))]
    simp [filenameOf, videoIdOf, hs]

/-- Pairwise-distinct reported identifiers give pairwise-distinct
generated file names. -/
theorem nodup_filenames (l : List RawHit)
    (hsome : ∀ v ∈ l, v.id.isSome = true)
    (hnd : (l.map RawHit.id).Nodup) :
    (l.map (fun v => "pixabay_video_" ++ v.id.getD "" ++ ".mp4")).Nodup := by
  have hmm : l.map (fun v => "pixabay_video_" ++ v.id.getD "" ++ ".mp4") =
      (l.map RawHit.id).map (fun o => "pixabay_video_" ++ o.getD "" ++ ".mp4") := by
    rw [List.map_map]
    rfl
  rw [hmm]
  refine List.Nodup.map_on ?_ hnd
  intro x hx y hy hxy
  rcases List.mem_map.mp hx with ⟨vx, hvx, hxe⟩
  rcases List.mem_map.mp hy with ⟨vy, hvy, hye⟩
  rcases Option.isSome_iff_exists.mp (hsome vx hvx) with ⟨sx, hsx⟩
  rcases Option.isSome_iff_exists.mp (hsome vy hvy) with ⟨sy, hsy⟩
  rw [← hxe, ← hye, hsx, hsy] at hxy
  simp only [Option.getD_some] at hxy
  rw [← hxe, ← hye, hsx, hsy, filename_template_inj sx sy hxy]

/-! ## The claims -/

/-- Claim C1, counterexample: with min 10 < max 30, the Result Filter
keeps `emptyUrlHit` because its `medium` rendition object is present and
truthy, yet that rendition's download URL is the empty string — so a
returned VideoHit need NOT have a non-empty download URL for the
requested quality, refuting the claim as stated. -/
theorem C1_counterexample :
    (10 : Int) < 30 ∧
    (searchPhase (pagesOf [emptyUrlHit]) 10 30 "medium" 5).2 =
      some [emptyUrlHit] ∧
    urlOf emptyUrlHit "medium" = some "" := by
  refine ⟨by decide, by decide, by decide⟩

/-- Claim C1 (amended): for criteria with min < max, every VideoHit
returned by the Result Filter reports a duration `d` with
min ≤ d ≤ max and has the requested quality rendition present as a
non-empty (truthy) object; the rendition's URL itself is not checked
and may be empty or absent. -/
theorem C1_kept_records_filtered (minD maxD : Int) (quality : String)
    (count : Nat) (pages : Nat → Except Unit (List RawHit))
    (t : List (Nat × List RawHit)) (l : List RawHit) (v : RawHit)
    (hlt : minD < maxD)
    (hsp : searchPhase pages minD maxD quality count = (t, some l))
    (hv : v ∈ l) :
    keptOk minD maxD quality v = true :=
  searchLoop_mem pages minD maxD quality count 2 1 [] [] t l
    (fun _ hmem => absurd hmem (List.not_mem_nil _)) hsp v hv

/-- Witness for `C1_kept_records_filtered` at a concrete run. -/
theorem C1_kept_records_filtered_witness :
    keptOk 10 30 "medium" hitA = true :=
  C1_kept_records_filtered 10 30 "medium" 1 (pagesOf [hitA]) [(1, [])] [hitA]
    hitA (by decide) (by decide) (by decide)

/-- Claim C2: with a positive requested count, the Result Filter returns
at most `count` VideoHits, and every page request recorded in the trace
was issued while the accumulated count was still strictly below the
requested count (so no page request happens after the count is
reached). -/
theorem C2_filter_bounded (minD maxD : Int) (quality : String) (count : Nat)
    (pages : Nat → Except Unit (List RawHit))
    (t : List (Nat × List RawHit)) (l : List RawHit)
    (p : Nat) (a : List RawHit)
    (hpos : 1 ≤ count)
    (hsp : searchPhase pages minD maxD quality count = (t, some l))
    (hmem : (p, a) ∈ t) :
    l.length ≤ count ∧ a.length < count := by
  constructor
  · exact searchLoop_length pages minD maxD quality count 2 1 [] [] t l hpos hsp
  · have hsp' : searchLoop pages minD maxD quality count 2 1 [] [] =
        (t, some l) := hsp
    refine searchLoop_trace_lt pages minD maxD quality count 2 1 [] [] p a hpos
      (fun q b hb => absurd hb (List.not_mem_nil _)) ?_
    rw [hsp']
    exact hmem

/-- Witness for `C2_filter_bounded` at a concrete run. -/
theorem C2_filter_bounded_witness :
    ([hitA].length ≤ 1) ∧ ([] : List RawHit).length < 1 :=
  C2_filter_bounded 10 30 "medium" 1 (pagesOf [hitA]) [(1, [])] [hitA] 1 []
    (by decide) (by decide) (by decide)

/-- Claim C3: for a completed run, the number of zip entries equals the
number of eligible VideoHits whose fetch succeeded, and never exceeds
the requested count. -/
theorem C3_archive_count (minD maxD : Int) (quality : String) (count : Nat)
    (pages : Nat → Except Unit (List RawHit))
    (fetch : String → Except Unit (List Nat))
    (t : List (Nat × List RawHit)) (e : List RawHit)
    (en : List (String × List Nat)) (f : List String)
    (hpos : 1 ≤ count)
    (h : run minD maxD quality count pages fetch = .done t e en f) :
    en.length =
      ((List.enumFrom 0 e).filterMap (succOf fetch quality)).length ∧
    en.length ≤ count := by
  rcases run_done_inv minD maxD quality count pages fetch t e en f h with ⟨hsp, hdl⟩
  have hlen : e.length ≤ count :=
    searchLoop_length pages minD maxD quality count 2 1 [] [] t e hpos hsp
  rcases downloadLoop_char fetch quality count e 0 [] [] en f
      (by simpa using hlen) hdl with ⟨hE, hF⟩
  have heq : en.length =
      ((List.enumFrom 0 e).filterMap (succOf fetch quality)).length := by
    rw [hE, List.nil_append]
  refine ⟨heq, ?_⟩
  rw [heq]
  calc ((List.enumFrom 0 e).filterMap (succOf fetch quality)).length
      ≤ (List.enumFrom 0 e).length := List.length_filterMap_le _ _
    _ = e.length := List.enumFrom_length
    _ ≤ count := hlen

/-- Witness for `C3_archive_count` at a concrete run. -/
theorem C3_archive_count_witness :
    ([("pixabay_video_101.mp4", [1]), ("pixabay_video_202.mp4", [1])] :
        List (String × List Nat)).length =
      ((List.enumFrom 0 [hitA, hitB]).filterMap (succOf fetchOk "medium")).length ∧
    ([("pixabay_video_101.mp4", [1]), ("pixabay_video_202.mp4", [1])] :
        List (String × List Nat)).length ≤ 5 :=
  C3_archive_count 10 30 "medium" 5 (pagesOf [hitA, hitB]) fetchOk
    [(1, []), (2, [hitA, hitB])] [hitA, hitB]
    [("pixabay_video_101.mp4", [1]), ("pixabay_video_202.mp4", [1])]
    ["pixabay_video_101.mp4", "pixabay_video_202.mp4"]
    (by decide) (by decide)

/-- Claim C4: in a completed run, an item whose fetch raised contributes
nothing to the archive (`succOf` is `none` for it) while the archive is
exactly the in-order record of ALL eligible items' successes — so every
item after a failed one was still attempted and the failed item left the
archive unchanged. -/
theorem C4_failed_item_skipped (minD maxD : Int) (quality : String)
    (count : Nat) (pages : Nat → Except Unit (List RawHit))
    (fetch : String → Except Unit (List Nat))
    (t : List (Nat × List RawHit)) (e : List RawHit)
    (en : List (String × List Nat)) (f : List String)
    (k : Nat) (v : RawHit) (u : String)
    (hpos : 1 ≤ count)
    (h : run minD maxD quality count pages fetch = .done t e en f)
    (hk : e.get? k = some v)
    (hu : urlOf v quality = some u)
    (hfe : fetch u = .error ()) :
    en = (List.enumFrom 0 e).filterMap (succOf fetch quality) ∧
    f = en.map Prod.fst ∧
    succOf fetch quality (k, v) = none := by
  rcases run_done_inv minD maxD quality count pages fetch t e en f h with ⟨hsp, hdl⟩
  have hlen : e.length ≤ count :=
    searchLoop_length pages minD maxD quality count 2 1 [] [] t e hpos hsp
  rcases downloadLoop_char fetch quality count e 0 [] [] en f
      (by simpa using hlen) hdl with ⟨hE, hF⟩
  refine ⟨by rw [hE, List.nil_append], ?_, ?_⟩
  · rw [hF, hE]
    simp
  · simp [succOf, hu, hfe]

/-- Witness for `C4_failed_item_skipped` at a concrete run in which the
first item's download fails and the second still succeeds. -/
theorem C4_failed_item_skipped_witness :
    ([("pixabay_video_202.mp4", [7])] : List (String × List Nat)) =
      (List.enumFrom 0 [hitA, hitB]).filterMap (succOf fetchFailA "medium") ∧
    ["pixabay_video_202.mp4"] =
      ([("pixabay_video_202.mp4", [7])] : List (String × List Nat)).map Prod.fst ∧
    succOf fetchFailA "medium" (0, hitA) = none :=
  C4_failed_item_skipped 10 30 "medium" 5 (pagesOf [hitA, hitB]) fetchFailA
    [(1, []), (2, [hitA, hitB])] [hitA, hitB]
    [("pixabay_video_202.mp4", [7])] ["pixabay_video_202.mp4"]
    0 hitA "ua" (by decide) (by decide) (by decide) (by decide) (by rfl)

/-- Claim C5: a transport/decoding failure on a requested search page is
fatal to the whole run — the search phase yields no hit list, the run
ends in `searchFatal`, and no archive is offered. -/
theorem C5_page_error_fatal (minD maxD : Int) (quality : String) (count : Nat)
    (pages : Nat → Except Unit (List RawHit))
    (fetch : String → Except Unit (List Nat))
    (t : List (Nat × List RawHit)) (r : Option (List RawHit))
    (p : Nat) (a : List RawHit)
    (hlt : minD < maxD)
    (hsp : searchPhase pages minD maxD quality count = (t, r))
    (hmem : (p, a) ∈ t)
    (hperr : pages p = .error ()) :
    r = none ∧
    run minD maxD quality count pages fetch = .searchFatal t ∧
    offeredArchive (run minD maxD quality count pages fetch) = none := by
  have hsp' : searchLoop pages minD maxD quality count 2 1 [] [] = (t, r) := hsp
  have hnone : r = none := by
    rcases searchLoop_pageError pages minD maxD quality count 2 1 [] [] p a
        (by rw [hsp']; exact hmem) hperr with h1 | h2
    · exact absurd h1 (List.not_mem_nil _)
    · rw [hsp'] at h2
      exact h2
  subst hnone
  have hr : run minD maxD quality count pages fetch = .searchFatal t :=
    run_of_search_none minD maxD quality count pages fetch t hlt hsp
  exact ⟨rfl, hr, by rw [hr]; rfl⟩

/-- Witness for `C5_page_error_fatal` at a concrete run whose first page
request fails. -/
theorem C5_page_error_fatal_witness :
    (none : Option (List RawHit)) = none ∧
    run 10 30 "medium" 1 pagesErr fetchOk = .searchFatal [(1, [])] ∧
    offeredArchive (run 10 30 "medium" 1 pagesErr fetchOk) = none :=
  C5_page_error_fatal 10 30 "medium" 1 pagesErr fetchOk [(1, [])] none 1 []
    (by decide) (by decide) (by decide) (by rfl)

/-- Claim C6: when min ≥ max the run aborts with the validation error:
the outcome is `invalid`, no page was requested, no archive is offered,
and the outcome does not depend on the network oracles at all (no
network call is made). -/
theorem C6_validation_stops (minD maxD : Int) (quality : String) (count : Nat)
    (pages pages2 : Nat → Except Unit (List RawHit))
    (fetch fetch2 : String → Except Unit (List Nat))
    (hge : maxD ≤ minD) :
    run minD maxD quality count pages fetch = .invalid ∧
    runTrace (run minD maxD quality count pages fetch) = [] ∧
    offeredArchive (run minD maxD quality count pages fetch) = none ∧
    run minD maxD quality count pages fetch =
      run minD maxD quality count pages2 fetch2 := by
  have h1 : run minD maxD quality count pages fetch = .invalid := by
    unfold run
    rw [if_pos hge]
  have h2 : run minD maxD quality count pages2 fetch2 = .invalid := by
    unfold run
    rw [if_pos hge]
  exact ⟨h1, by rw [h1]; rfl, by rw [h1]; rfl, by rw [h1, h2]⟩

/-- Witness for `C6_validation_stops` with min 30 ≥ max 10 and two
different oracle pairs. -/
theorem C6_validation_stops_witness :
    run 30 10 "medium" 5 (pagesOf [hitA]) fetchOk = .invalid ∧
    runTrace (run 30 10 "medium" 5 (pagesOf [hitA]) fetchOk) = [] ∧
    offeredArchive (run 30 10 "medium" 5 (pagesOf [hitA]) fetchOk) = none ∧
    run 30 10 "medium" 5 (pagesOf [hitA]) fetchOk =
      run 30 10 "medium" 5 pagesErr fetchFailA :=
  C6_validation_stops 30 10 "medium" 5 (pagesOf [hitA]) pagesErr fetchOk
    fetchFailA (by decide)

/-- Claim C7: a run that finds zero eligible hits ends in the `noHits`
warning state with no archive offered (and not in the fatal state), and
a completed run with zero successfully downloaded files offers no
archive either. -/
theorem C7_empty_results_warn (minD maxD : Int) (quality : String)
    (count : Nat) (pages : Nat → Except Unit (List RawHit))
    (fetch : String → Except Unit (List Nat))
    (t t2 : List (Nat × List RawHit)) (e2 : List RawHit)
    (en2 : List (String × List Nat))
    (hlt : minD < maxD) :
    (searchPhase pages minD maxD quality count = (t, some []) →
      run minD maxD quality count pages fetch = .noHits t ∧
      offeredArchive (run minD maxD quality count pages fetch) = none) ∧
    (run minD maxD quality count pages fetch = .done t2 e2 en2 [] →
      offeredArchive (run minD maxD quality count pages fetch) = none) := by
  constructor
  · intro hsp
    have hr : run minD maxD quality count pages fetch = .noHits t := by
      unfold run
      rw [if_neg (not_le.mpr hlt), hsp]
      rfl
    exact ⟨hr, by rw [hr]; rfl⟩
  · intro hdone
    rw [hdone]
    rfl

/-- Witness for `C7_empty_results_warn` at a run whose first page is
empty, so no eligible hits exist. -/
theorem C7_empty_results_warn_witness :
    run 10 30 "medium" 1 (pagesOf []) fetchOk = .noHits [(1, [])] ∧
    offeredArchive (run 10 30 "medium" 1 (pagesOf []) fetchOk) = none :=
  (C7_empty_results_warn 10 30 "medium" 1 (pagesOf []) fetchOk [(1, [])]
    [] [] [] (by decide)).1 (by decide)

/-- Claim C8, counterexample: two eligible hits reporting the same
external identifier produce the same generated file name twice, so the
file names of a run are NOT always unique. -/
theorem C8_counterexample :
    run 10 30 "medium" 5 (pagesOf [dupA, dupB]) fetchOk =
      .done [(1, []), (2, [dupA, dupB])] [dupA, dupB]
        [("pixabay_video_7.mp4", [1]), ("pixabay_video_7.mp4", [1])]
        ["pixabay_video_7.mp4", "pixabay_video_7.mp4"] ∧
    ¬ (["pixabay_video_7.mp4", "pixabay_video_7.mp4"] : List String).Nodup := by
  refine ⟨by decide, by decide⟩

/-- Claim C8 (amended): file names are derived from the hit's external
identifier, and they are unique within a run PROVIDED the eligible hits
all report identifiers and those identifiers are pairwise distinct (the
code never deduplicates, so duplicated identifiers duplicate names). -/
theorem C8_unique_filenames (minD maxD : Int) (quality : String) (count : Nat)
    (pages : Nat → Except Unit (List RawHit))
    (fetch : String → Except Unit (List Nat))
    (t : List (Nat × List RawHit)) (e : List RawHit)
    (en : List (String × List Nat)) (f : List String)
    (hpos : 1 ≤ count)
    (h : run minD maxD quality count pages fetch = .done t e en f)
    (hsome : ∀ v ∈ e, v.id.isSome = true)
    (hnd : (e.map RawHit.id).Nodup) :
    f.Nodup := by
  rcases run_done_inv minD maxD quality count pages fetch t e en f h with ⟨hsp, hdl⟩
  have hlen : e.length ≤ count :=
    searchLoop_length pages minD maxD quality count 2 1 [] [] t e hpos hsp
  rcases downloadLoop_char fetch quality count e 0 [] [] en f
      (by simpa using hlen) hdl with ⟨hE, hF⟩
  rw [hF, List.nil_append]
  have hsub := filterMap_fst_sublist fetch quality (List.enumFrom 0 e)
  rw [map_filename_enumFrom e 0 hsome] at hsub
  exact List.Nodup.sublist hsub (nodup_filenames e hsome hnd)

/-- Witness for `C8_unique_filenames` at a concrete run with two
distinct identifiers. -/
theorem C8_unique_filenames_witness :
    (["pixabay_video_101.mp4", "pixabay_video_202.mp4"] : List String).Nodup :=
  C8_unique_filenames 10 30 "medium" 5 (pagesOf [hitA, hitB]) fetchOk
    [(1, []), (2, [hitA, hitB])] [hitA, hitB]
    [("pixabay_video_101.mp4", [1]), ("pixabay_video_202.mp4", [1])]
    ["pixabay_video_101.mp4", "pixabay_video_202.mp4"]
    (by decide) (by decide) (by decide) (by decide)

/-- Claim C9: in a completed run the zip entries are exactly the
in-order (`List.enumFrom`-indexed) subsequence of the eligible hits
whose downloads succeeded, and the recorded file names are those
entries' names in the same order. -/
theorem C9_order_preserved (minD maxD : Int) (quality : String) (count : Nat)
    (pages : Nat → Except Unit (List RawHit))
    (fetch : String → Except Unit (List Nat))
    (t : List (Nat × List RawHit)) (e : List RawHit)
    (en : List (String × List Nat)) (f : List String)
    (hpos : 1 ≤ count)
    (h : run minD maxD quality count pages fetch = .done t e en f) :
    en = (List.enumFrom 0 e).filterMap (succOf fetch quality) ∧
    f = en.map Prod.fst := by
  rcases run_done_inv minD maxD quality count pages fetch t e en f h with ⟨hsp, hdl⟩
  have hlen : e.length ≤ count :=
    searchLoop_length pages minD maxD quality count 2 1 [] [] t e hpos hsp
  rcases downloadLoop_char fetch quality count e 0 [] [] en f
      (by simpa using hlen) hdl with ⟨hE, hF⟩
  refine ⟨by rw [hE, List.nil_append], ?_⟩
  rw [hF, hE]
  simp

/-- Witness for `C9_order_preserved` at a concrete run in which the
first item fails and is dropped while order is kept. -/
theorem C9_order_preserved_witness :
    ([("pixabay_video_202.mp4", [7])] : List (String × List Nat)) =
      (List.enumFrom 0 [hitA, hitB]).filterMap (succOf fetchFailA "medium") ∧
    ["pixabay_video_202.mp4"] =
      ([("pixabay_video_202.mp4", [7])] : List (String × List Nat)).map Prod.fst :=
  C9_order_preserved 10 30 "medium" 5 (pagesOf [hitA, hitB]) fetchFailA
    [(1, []), (2, [hitA, hitB])] [hitA, hitB]
    [("pixabay_video_202.mp4", [7])] ["pixabay_video_202.mp4"]
    (by decide) (by decide)

/-- Claim C10, counterexample: a malformed record (in-range duration,
no `videos` mapping) present on a fetched page does NOT always abort the
run — here the requested count is reached before the record is examined,
the inner break skips it, and the run completes and offers an archive. -/
theorem C10_counterexample :
    pagesOf [hitA, badNoVideos] 1 = .ok [hitA, badNoVideos] ∧
    badNoVideos.duration = some 15 ∧ (10 : Int) ≤ 15 ∧ (15 : Int) ≤ 30 ∧
    badNoVideos.videos = none ∧
    run 10 30 "medium" 1 (pagesOf [hitA, badNoVideos]) fetchOk =
      .done [(1, [])] [hitA] [("pixabay_video_101.mp4", [1])]
        ["pixabay_video_101.mp4"] ∧
    offeredArchive (run 10 30 "medium" 1 (pagesOf [hitA, badNoVideos]) fetchOk) =
      some [("pixabay_video_101.mp4", [1])] := by
  refine ⟨by rfl, by decide, by decide, by decide, by decide, by decide,
    by decide⟩

/-- Claim C10 (amended): if the filter loop actually REACHES a record
with an in-range duration but no `videos` mapping — i.e. the records
before it neither raised nor filled the requested count — the page's
filter raises, and whenever the filter raises on a fetched page the
whole run aborts fatally with no archive and no use of the hits
collected so far. -/
theorem C10_missing_videos_fatal (minD maxD : Int) (quality : String)
    (count : Nat) (pages : Nat → Except Unit (List RawHit))
    (fetch : String → Except Unit (List Nat))
    (t : List (Nat × List RawHit)) (r : Option (List RawHit))
    (p : Nat) (a : List RawHit) (hits l1 l2 : List RawHit)
    (bad : RawHit) (acc' : List RawHit) (d : Int) :
    (bad.duration = some d → minD ≤ d → d ≤ maxD → bad.videos = none →
      filterHits minD maxD quality count a l1 = .ok acc' →
      acc'.length < count →
      filterHits minD maxD quality count a (l1 ++ bad :: l2) = .error ()) ∧
    (minD < maxD → searchPhase pages minD maxD quality count = (t, r) →
      (p, a) ∈ t → pages p = .ok hits →
      filterHits minD maxD quality count a hits = .error () →
      r = none ∧
      run minD maxD quality count pages fetch = .searchFatal t ∧
      offeredArchive (run minD maxD quality count pages fetch) = none) := by
  constructor
  · intro hd h1 h2 hv hok hlt
    exact filterHits_reach minD maxD quality count bad d hd h1 h2 hv l1 a acc'
      l2 hok hlt
  · intro hlt hsp hmem hpok hferr
    have hsp' : searchLoop pages minD maxD quality count 2 1 [] [] = (t, r) :=
      hsp
    have hnone : r = none := by
      rcases searchLoop_filterError pages minD maxD quality count 2 1 [] [] p a
          hits (by rw [hsp']; exact hmem) hpok hferr with h1 | h2
      · exact absurd h1 (List.not_mem_nil _)
      · rw [hsp'] at h2
        exact h2
    subst hnone
    have hr : run minD maxD quality count pages fetch = .searchFatal t :=
      run_of_search_none minD maxD quality count pages fetch t hlt hsp
    exact ⟨rfl, hr, by rw [hr]; rfl⟩

/-- Witness for `C10_missing_videos_fatal`: a page whose first record is
the malformed one, so the filter reaches it and the run aborts. -/
theorem C10_missing_videos_fatal_witness :
    filterHits 10 30 "medium" 1 [] ([] ++ badNoVideos :: []) = .error () ∧
    ((none : Option (List RawHit)) = none ∧
      run 10 30 "medium" 1 (pagesOf [badNoVideos]) fetchOk =
        .searchFatal [(1, [])] ∧
      offeredArchive (run 10 30 "medium" 1 (pagesOf [badNoVideos]) fetchOk) =
        none) :=
  ⟨(C10_missing_videos_fatal 10 30 "medium" 1 (pagesOf [badNoVideos]) fetchOk
      [(1, [])] none 1 [] [badNoVideos] [] [] badNoVideos [] 15).1
      (by decide) (by decide) (by decide) (by decide) (by rfl) (by decide),
   (C10_missing_videos_fatal 10 30 "medium" 1 (pagesOf [badNoVideos]) fetchOk
      [(1, [])] none 1 [] [badNoVideos] [] [] badNoVideos [] 15).2
      (by decide) (by decide) (by decide) (by rfl) (by rfl)⟩

end PixabayDL
